import Mathlib

/-!
Verification development for the note-agent-ML extraction pipeline.

Each Python function under scrutiny is shallowly embedded as an executable
Lean definition.  Machine floats are modelled by `ℚ`; Python `while` loops
are modelled by structurally recursive functions with an explicit fuel
argument that the wrappers instantiate with a provably sufficient value;
Python's stable `list.sort` is modelled by `List.insertionSort`, which
places an element being inserted before the first element it is not
strictly after and is therefore stable in the same sense.
-/

namespace NoteAgentML

/-! ### Rounding (Python `round(x, 4)`)

Python `round` uses banker's rounding (round half to even).  We model it
exactly; on every score reachable in `intelligence.py` / `search.py` the
value `x * 10000` is never half-integral (all summands are multiples of
`1/700`), so this coincides with any other tie-breaking convention. -/

/-- Round-half-to-even on rationals, as Python's builtin `round`. -/
def roundHalfEven (x : ℚ) : ℤ :=
  let f := ⌊x⌋
  let r := x - f
  if r < 1/2 then f
  else if 1/2 < r then f + 1
  else if Even f then f else f + 1

/-- Python `round(x, 4)`: round to 4 decimal places. -/
def round4 (x : ℚ) : ℚ := (roundHalfEven (x * 10000) : ℚ) / 10000

/-! ### Urgency scoring

`IntelligenceLayer._compute_urgency_score` (src/ml/intelligence.py lines
313-337) and the urgency part of `HybridSearchEngine._enrich_task`
(src/ml/search.py lines 326-370).  Both call sites normalise
`status`/`priority` with `(… or default).lower()` and derive
`due_in_days` from the same `strptime(due_date, "%Y-%m-%d")` subtraction
against the reference date, so both scorers are modelled as functions of
the normalised strings and the shared `due_in_days : Option ℤ`. -/

/-- `{"low": 0.2, "medium": 0.5, "high": 0.8}.get(priority, 0.5)`. -/
def priorityBase (priority : String) : ℚ :=
  if priority = "low" then 1/5
  else if priority = "medium" then 1/2
  else if priority = "high" then 4/5
  else 1/2

/-- `IntelligenceLayer._compute_urgency_score` (intelligence.py 313-337). -/
def computeUrgencyScore (priority status : String) (due_in_days : Option ℤ) : ℚ :=
  let base := priorityBase priority
  if status = "done" ∨ status = "archived" then 0
  else
    let score := base +
      (match due_in_days with
       | none => 1/20
       | some d =>
         if d < 0 then
           let lateness : ℤ := min |d| 14
           7/20 + (lateness : ℚ) / 14 * (3/10)
         else if d = 0 then 3/10
         else if d ≤ 3 then 1/5
         else if d ≤ 7 then 1/10
         else 1/50)
    let score := if status = "in_progress" then score + 1/20 else score
    round4 (min score 1)

/-- The urgency computation inside `HybridSearchEngine._enrich_task`
(search.py 347-369): flat `+0.45` when overdue, and no increment at all
for a due date more than 7 days out. -/
def enrichUrgencyScore (priority status : String) (due_in_days : Option ℤ) : ℚ :=
  let base := priorityBase priority
  let urgency :=
    if status = "done" ∨ status = "archived" then 0
    else
      let u := base +
        (match due_in_days with
         | none => 1/20
         | some d =>
           if d < 0 then 9/20
           else if d = 0 then 3/10
           else if d ≤ 3 then 1/5
           else if d ≤ 7 then 1/10
           else 0)
      if status = "in_progress" then u + 1/20 else u
  round4 (min urgency 1)

/-- The spec's wording of the urgency score (§4.6 of the spec): priority
base, plus due-date increment, plus in-progress bump, clamped to `[0,1]`
and rounded to 4 decimals; terminal states force `0`. -/
def urgencySpec (priority status : String) (due_in_days : Option ℤ) : ℚ :=
  if status = "done" ∨ status = "archived" then 0
  else
    let incr : ℚ :=
      match due_in_days with
      | none => 1/20
      | some d =>
        if d < 0 then 7/20 + ((min |d| 14 : ℤ) : ℚ) / 14 * (3/10)
        else if d = 0 then 3/10
        else if d ≤ 3 then 1/5
        else if d ≤ 7 then 1/10
        else 1/50
    let prog : ℚ := if status = "in_progress" then 1/20 else 0
    round4 (max 0 (min 1 (priorityBase priority + incr + prog)))

/-! ### Words and word-set overlap

Python `str.split()` (no argument) splits on runs of whitespace and drops
empty pieces.  We model it directly on the character list. -/

/-- Helper for `pyWords`: accumulates the current word (reversed) and cuts
at whitespace, exactly like Python `str.split()`. -/
def wordsAux : List Char → List Char → List (List Char)
  | [], acc => if acc = [] then [] else [acc.reverse]
  | c :: rest, acc =>
    if c.isWhitespace then
      if acc = [] then wordsAux rest []
      else acc.reverse :: wordsAux rest []
    else wordsAux rest (c :: acc)

/-- Python `s.split()`: the maximal non-whitespace runs of `s`. -/
def pyWords (s : String) : List (List Char) := wordsAux s.data []

/-- Python `s.lower()`, character-wise (the claims only involve ASCII). -/
def pyLower (s : String) : String := String.mk (s.data.map Char.toLower)

/-- Python `s.strip()`: drop leading and trailing whitespace. -/
def pyStrip (s : String) : String :=
  String.mk (((s.data.dropWhile Char.isWhitespace).reverse.dropWhile
    Char.isWhitespace).reverse)

/-- Python `set(s.split())`. -/
def wordSet (s : String) : Finset (List Char) := (pyWords s).toFinset

/-- The overlap measure of `_deduplicate_objects`:
`len(words_a & words_b) / max(len(words_a), len(words_b))`
(in Lean, division by zero yields 0). -/
def overlapQ (a b : Finset (List Char)) : ℚ :=
  ((a ∩ b).card : ℚ) / (max a.card b.card : ℕ)

/-! ### Extraction data model (src/ml/extraction.py) -/

/-- The closed object-type catalogue of `ExtractedObject.type`. -/
inductive ObjType
  | Idea | Claim | Assumption | Question | Task | Evidence | Definition
deriving DecidableEq, Repr

/-- `ExtractedObject` (extraction.py 13-30).  `confidence` is a float,
modelled by `ℚ`; the pydantic validator clamps it at construction, which
is irrelevant to the claims below and therefore carried as a plain field. -/
structure ExtractedObject where
  id : String
  type : ObjType
  canonical_text : String
  confidence : ℚ
  context : Option String := none
  span_start : Option ℤ := none
  span_end : Option ℤ := none
deriving DecidableEq, Repr

/-- The closed link-type catalogue of `Link.type`. -/
inductive LinkType
  | Supports | Contradicts | Refines | DependsOn | SameAs | Causes
deriving DecidableEq, Repr

/-- `Link` (extraction.py 33-48). -/
structure Link where
  source_id : String
  target_id : String
  type : LinkType
  confidence : ℚ
  evidence_span_id : Option String := none
deriving DecidableEq, Repr

/-- `ObjectMention` (extraction.py 51-57). -/
structure ObjectMention where
  object_id : String
  note_id : String
  span_id : String
  role : String
  confidence : ℚ
deriving DecidableEq, Repr

/-- `ExtractionResult` (extraction.py 60-64). -/
structure ExtractionResult where
  objects : List ExtractedObject
  links : List Link
  mentions : List ObjectMention
deriving DecidableEq, Repr

/-! ### Dense decimal IDs (`f"obj_{i + 1:03d}"`)

The decimal rendering of a natural number, written exactly as a
fuel-driven digit loop (mirroring how any decimal printer peels off
`n % 10` digits), plus the zero-padding of the `03d` format. -/

/-- Digit loop: prepends the decimal digits of `n` to `acc`.  `fuel`
bounds the number of digits; `natRepr` passes `n + 1`, which is ample. -/
def toDecAux : Nat → Nat → List Char → List Char
  | 0, _, acc => acc
  | fuel + 1, n, acc =>
    let acc' := Nat.digitChar (n % 10) :: acc
    if n < 10 then acc' else toDecAux fuel (n / 10) acc'

/-- Decimal digits of `n`, most significant first. -/
def natRepr (n : Nat) : List Char := toDecAux (n + 1) n []

/-- `f"obj_{n:03d}"`: the ID assigned by `_deduplicate_objects`. -/
def fmt3 (n : Nat) : String :=
  String.mk ('o' :: 'b' :: 'j' :: '_' ::
    (List.replicate (3 - (natRepr n).length) '0' ++ natRepr n))

/-- Non-accumulator characterisation of the digit loop, used to reason
about `natRepr`. -/
def natReprSpec (n : Nat) : List Char :=
  if n < 10 then [Nat.digitChar n]
  else natReprSpec (n / 10) ++ [Nat.digitChar (n % 10)]
termination_by n
decreasing_by exact Nat.div_lt_self (by omega) (by norm_num)

/-- Reads a digit string back as a number (a left inverse of `natRepr`
up to leading zeros, used to prove that the dense IDs are distinct). -/
def decodeDigits (l : List Char) : Nat :=
  l.foldl (fun acc c => 10 * acc + (c.toNat - 48)) 0

/-! ### The deduplicator (`LLMExtractor._deduplicate_objects`, extraction.py 263-295) -/

/-- `TYPE_PRIORITY` (extraction.py 268-269); the dict's default `99` is
unreachable because the type enum is closed. -/
def typePriority : ObjType → Nat
  | .Idea => 1
  | .Question => 2
  | .Task => 3
  | .Assumption => 4
  | .Definition => 5
  | .Evidence => 6
  | .Claim => 7

/-- The sort key order of `all_objects.sort(key=…)`. -/
def objLE (a b : ExtractedObject) : Prop :=
  typePriority a.type ≤ typePriority b.type

instance : DecidableRel objLE := fun a b =>
  inferInstanceAs (Decidable (typePriority a.type ≤ typePriority b.type))

instance : IsTotal ExtractedObject objLE :=
  ⟨fun a b => Nat.le_total (typePriority a.type) (typePriority b.type)⟩

instance : IsTrans ExtractedObject objLE :=
  ⟨fun _ _ _ h h' => Nat.le_trans h h'⟩

/-- `obj.canonical_text.lower().strip()`. -/
def normText (s : String) : String := pyStrip (pyLower s)

/-- One comparison of the dedup loop: `obj_text` is a duplicate of `seen`
when both word sets are non-empty and the overlap strictly exceeds 0.8. -/
def isDupOf (objText seen : String) : Bool :=
  let words_a := wordSet objText
  let words_b := wordSet seen
  if words_a = ∅ ∨ words_b = ∅ then false
  else decide (overlapQ words_a words_b > 4/5)

/-- The walk of the sorted candidate list: keep an object unless it is a
duplicate of some already-kept text, and record kept texts. -/
def dedupLoop : List ExtractedObject → List String → List ExtractedObject
  | [], _ => []
  | obj :: rest, seen =>
    let objText := normText obj.canonical_text
    if seen.any fun s => isDupOf objText s then dedupLoop rest seen
    else obj :: dedupLoop rest (seen ++ [objText])

/-- `for i, obj in enumerate(deduped): obj.id = f"obj_{i + 1:03d}"`. -/
def renumberFrom (k : Nat) : List ExtractedObject → List ExtractedObject
  | [] => []
  | obj :: rest => { obj with id := fmt3 k } :: renumberFrom (k + 1) rest

/-- `LLMExtractor._deduplicate_objects`: stable sort by type priority,
drop near-duplicates, re-number the survivors' IDs densely. -/
def deduplicateObjects (all_objects : List ExtractedObject) : List ExtractedObject :=
  renumberFrom 1 (dedupLoop (all_objects.insertionSort objLE) [])

/-! ### The orchestrator (`LLMExtractor.extract`, extraction.py 157-247)

The two reasoning-service calls and the span-offset reconciliation of
lines 193-222 are abstracted as parameters: `batchResult` is the object
list returned by `_extract_batch`, `relationships` stands for
`_extract_relationships`, and `resolveSpan` stands for the per-object
`resolved_span_id` computation (which yields the caller-supplied
`span_id` when `chunks` is `None`).  The claims about `extract` do not
depend on any of the three. -/

/-- `LLMExtractor.extract`: empty short-circuit, deduplication, one
`ObjectMention` per surviving object (extraction.py 172-247). -/
def extract (batchResult : List ExtractedObject)
    (relationships : List ExtractedObject → List Link)
    (note_id : String) (resolveSpan : ExtractedObject → String) :
    ExtractionResult :=
  if batchResult = [] then
    { objects := [], links := [], mentions := [] }
  else
    let all_objects := deduplicateObjects batchResult
    let links := relationships all_objects
    let mentions := all_objects.map fun obj =>
      { object_id := obj.id
        note_id := note_id
        span_id := resolveSpan obj
        role := "primary"
        confidence := obj.confidence : ObjectMention }
    { objects := all_objects, links := links, mentions := mentions }

/-! ### The object pass (`LLMExtractor._extract_batch`, extraction.py 297-398)

One reasoning-service call per attempt; any exception inside the `try`
block (connection failure, timeout, non-string content, …) is modelled by
`LLMResp.failure`.  JSON parsing, `_attempt_json_repair`,
`parsed.get('objects', [])` and the pydantic construction of line
371-379 are abstracted as the functions carried by `BatchOracle`; the
claims hold for every behaviour of those functions. -/

/-- Outcome of one `client.chat.completions.create` call: an exception,
or a raw response string. -/
inductive LLMResp
  | failure
  | success (raw : String)

/-- The external collaborators of `_extract_batch`.  `J` is the type of
parsed JSON documents, `R` the type of raw object items. -/
structure BatchOracle (J R : Type) where
  /-- response to the first (is_retry=False) call -/
  firstResp : LLMResp
  /-- response to the regeneration (is_retry=True) call -/
  retryResp : LLMResp
  /-- `json.loads` (None = `JSONDecodeError`) -/
  jsonLoads : String → Option J
  /-- `_attempt_json_repair` (extraction.py 95-114) -/
  attemptRepair : String → Option J
  /-- `parsed.get('objects', [])` -/
  getObjects : J → List R
  /-- the `ExtractedObject(...)` construction for item `i` (extraction.py
  371-379); `none` = the `except` that skips a malformed item -/
  validate : Nat → R → Option ExtractedObject

/-- Steps 3 and 5 of `_extract_batch`: strict parse, then repair. -/
def parseResponse {J R : Type} (o : BatchOracle J R) (raw : String) : Option J :=
  match o.jsonLoads raw with
  | some parsed => some parsed
  | none => o.attemptRepair raw

/-- The validation loop over `parsed.get('objects', [])`. -/
def mkObjects {J R : Type} (o : BatchOracle J R) (parsed : J) : List ExtractedObject :=
  (o.getObjects parsed).enum.filterMap fun p => o.validate p.1 p.2

/-- `_extract_batch(text, is_retry=True)`: the regeneration attempt.
Second component counts reasoning-service calls made. -/
def extractBatchRetry {J R : Type} (o : BatchOracle J R) :
    List ExtractedObject × Nat :=
  match o.retryResp with
  | .failure => ([], 1)
  | .success raw =>
    match parseResponse o raw with
    | none => ([], 1)
    | some parsed => (mkObjects o parsed, 1)

/-- `_extract_batch(text)` (first attempt, is_retry=False): on a call
failure or a doubly-unparseable response, regenerate exactly once. -/
def extractBatchModel {J R : Type} (o : BatchOracle J R) :
    List ExtractedObject × Nat :=
  match o.firstResp with
  | .failure =>
    let r := extractBatchRetry o
    (r.1, r.2 + 1)
  | .success raw =>
    match parseResponse o raw with
    | none =>
      let r := extractBatchRetry o
      (r.1, r.2 + 1)
    | some parsed => (mkObjects o parsed, 1)

/-! ### The graph store (`KnowledgeGraph`, src/ml/graph.py)

A NetworkX `DiGraph` is modelled as an insertion-ordered association
list of nodes and an association list of directed edges keyed by the
endpoint pair (NetworkX keeps at most one edge per ordered pair;
re-adding updates the attributes in place). -/

/-- Node attributes stored by `add_objects` (graph.py 21-39; the
`ExtractedObject` of extraction.py has no `attributes` payload, so the
`getattr(obj, "attributes", None)` branch never fires). -/
structure NodeData where
  type : ObjType
  canonical_text : String
  confidence : ℚ
deriving DecidableEq, Repr

/-- Edge attributes stored by `add_links` (graph.py 45-50). -/
structure EdgeData where
  type : LinkType
  confidence : ℚ
deriving DecidableEq, Repr

/-- The graph state. -/
structure KnowledgeGraph where
  nodes : List (String × NodeData)
  edges : List (String × String × EdgeData)
deriving Repr

/-- `KnowledgeGraph()`: the empty graph. -/
def emptyGraph : KnowledgeGraph := { nodes := [], edges := [] }

/-- NetworkX `has_node`. -/
def hasNode (g : KnowledgeGraph) (id : String) : Bool :=
  g.nodes.any fun p => p.1 = id

/-- NetworkX `add_node`: update attributes in place, else append. -/
def addNode (g : KnowledgeGraph) (id : String) (d : NodeData) : KnowledgeGraph :=
  if g.nodes.any fun p => p.1 = id then
    { g with nodes := g.nodes.map fun p => if p.1 = id then (id, d) else p }
  else
    { g with nodes := g.nodes ++ [(id, d)] }

/-- NetworkX `add_edge` (both endpoints exist when called from
`add_links`): update attributes in place, else append. -/
def addEdge (g : KnowledgeGraph) (u v : String) (d : EdgeData) : KnowledgeGraph :=
  if g.edges.any fun e => e.1 = u ∧ e.2.1 = v then
    { g with edges := g.edges.map fun e =>
        if e.1 = u ∧ e.2.1 = v then (u, v, d) else e }
  else
    { g with edges := g.edges ++ [(u, v, d)] }

/-- `KnowledgeGraph.add_objects` (graph.py 13-39). -/
def addObjects (g : KnowledgeGraph) (objects : List ExtractedObject) : KnowledgeGraph :=
  objects.foldl
    (fun g obj => addNode g obj.id
      { type := obj.type
        canonical_text := obj.canonical_text
        confidence := obj.confidence })
    g

/-- `KnowledgeGraph.add_links` (graph.py 41-53): a link is added only
when both endpoints are present; otherwise it is silently skipped. -/
def addLinks (g : KnowledgeGraph) (links : List Link) : KnowledgeGraph :=
  links.foldl
    (fun g link =>
      if hasNode g link.source_id ∧ hasNode g link.target_id then
        addEdge g link.source_id link.target_id
          { type := link.type, confidence := link.confidence }
      else g)
    g

/-- A call in a `add_objects` / `add_links` interaction sequence. -/
inductive GraphOp
  | addObjs (objects : List ExtractedObject)
  | addLnks (links : List Link)

/-- Apply one call. -/
def applyOp (g : KnowledgeGraph) : GraphOp → KnowledgeGraph
  | .addObjs objects => addObjects g objects
  | .addLnks links => addLinks g links

/-- Apply a sequence of calls. -/
def applyOps (g : KnowledgeGraph) (ops : List GraphOp) : KnowledgeGraph :=
  ops.foldl applyOp g

/-- The graph invariant: every edge's endpoints are present as nodes. -/
def endpointsPresent (g : KnowledgeGraph) : Prop :=
  ∀ e ∈ g.edges, hasNode g e.1 = true ∧ hasNode g e.2.1 = true

/-! ### Hybrid search (`HybridSearchEngine`, src/ml/search.py)

The claim under scrutiny fixes `embedding_generator=None` (the vector
pass yields `[]`) and `use_graph_boost=False`, so `search` reduces to
the keyword pass, the fusion dict, a stable sort and truncation; that
configuration is embedded below.  The `metadata` field of an indexed
chunk and the unused `vector` are not consulted on this path. -/

/-- An entry of `HybridSearchEngine.chunks` (search.py 41-48). -/
structure IndexedChunk where
  id : String
  text : String
  vector : List ℚ
deriving DecidableEq, Repr

/-- `SearchResult` (search.py 7-12). -/
structure SearchResult where
  chunk_id : String
  text : String
  score : ℚ
  source : String
deriving DecidableEq, Repr

/-- Python `term in text_lower`: substring containment. -/
def pyIn (needle : List Char) (hay : String) : Bool :=
  decide (needle <:+: hay.data)

/-- The descending order used by `results.sort(key=lambda x: x.score,
reverse=True)`; `insertionSort` with it is stable exactly like CPython's
sort. -/
def scoreGE (a b : SearchResult) : Prop := b.score ≤ a.score

instance : DecidableRel scoreGE := fun a b =>
  inferInstanceAs (Decidable (b.score ≤ a.score))

instance : IsTotal SearchResult scoreGE := ⟨fun a b => le_total b.score a.score⟩

instance : IsTrans SearchResult scoreGE := ⟨fun _ _ _ h h' => le_trans h' h⟩

/-- `set(query.lower().split())`: the distinct lower-cased query terms. -/
def queryTerms (query : String) : Finset (List Char) :=
  (pyWords (pyLower query)).toFinset

/-- The term-overlap count of `_keyword_search`'s inner loop
(search.py 86-89). -/
def keywordScore (terms : Finset (List Char)) (text : String) : ℕ :=
  (terms.filter fun term => pyIn term (pyLower text)).card

/-- `HybridSearchEngine._keyword_search` (search.py 79-100): score each
chunk, keep strictly positive scores scaled by ×10, sort descending
(stably), truncate to `top_k`. -/
def keywordSearch (chunks : List IndexedChunk) (query : String) (top_k : ℕ) :
    List SearchResult :=
  let query_terms := queryTerms query
  let results := chunks.filterMap fun chunk =>
    let score := keywordScore query_terms chunk.text
    if 0 < score then
      some { chunk_id := chunk.id, text := chunk.text
             score := (score : ℚ) * 10, source := "keyword" }
    else none
  (results.insertionSort scoreGE).take top_k

/-- One step of the fusion loop (search.py 154-160) over the `combined`
dict (modelled as an insertion-ordered association list on `chunk_id`):
an id already present accumulates the score and is tagged `"hybrid"`,
otherwise the result is appended. -/
def fuseStep (combined : List SearchResult) (res : SearchResult) :
    List SearchResult :=
  if combined.any fun r => r.chunk_id = res.chunk_id then
    combined.map fun r =>
      if r.chunk_id = res.chunk_id then
        { r with score := r.score + res.score, source := "hybrid" }
      else r
  else combined ++ [res]

/-- `HybridSearchEngine.search` (search.py 134-170) in the claimed
configuration: no embedding generator (`vector_results = []`, so the
initial `combined` dict is empty) and `use_graph_boost=False`. -/
def searchKeywordOnly (chunks : List IndexedChunk) (query : String)
    (top_k : ℕ) : List SearchResult :=
  let keyword_results := keywordSearch chunks query top_k
  let final_results := keyword_results.foldl fuseStep []
  (final_results.insertionSort scoreGE).take top_k

/-! ### Token-window helper (`sliding_window_ranges`, src/ml/chunk_text.py
22-41; the identical `_window_ranges` is tasks.py 269-286)

The `while` loop advances `start` by `step = window_size - overlap ≥ 1`,
so `n_tokens.toNat + 1` iterations always suffice; the fuel argument is
instantiated with exactly that. -/

/-- The range-producing loop of `sliding_window_ranges`. -/
def windowLoop (n_tokens window_size step : ℤ) : ℕ → ℤ → List (ℤ × ℤ)
  | 0, _ => []
  | fuel + 1, start =>
    if start < n_tokens then
      let e := min (start + window_size) n_tokens
      (start, e) ::
        (if e = n_tokens then []
         else windowLoop n_tokens window_size step fuel (start + step))
    else []

/-- `sliding_window_ranges(n_tokens, window_size, overlap)`: the three
guard clauses raise `ValueError` before any range is produced. -/
def slidingWindowRanges (n_tokens window_size overlap : ℤ) :
    Except String (List (ℤ × ℤ)) :=
  if window_size ≤ 0 then .error "window_size must be > 0"
  else if overlap < 0 then .error "overlap must be >= 0"
  else if window_size ≤ overlap then .error "overlap must be < window_size"
  else
    .ok (windowLoop n_tokens window_size (window_size - overlap)
      (n_tokens.toNat + 1) 0)

/-! ### The sentence-packing segmenter (`chunk_text_task`, src/ml/tasks.py
289-405)

The portion modelled is the span-building loop over the non-empty
sentences (tasks.py 342-395); the database reads/writes, spaCy
sentencising and tiktoken encoding around it are external collaborators.
A sentence carries its character offsets and token count; a produced
span additionally records, as bookkeeping, which sentence indices it
packs (`start_idx`/`end_idx`), which in the source are implicit in
`sentences[start_idx]["start_char"]` / `sentences[end_idx - 1]["end_char"]`.
`chunk_text_task` accepts an `overlap` parameter but never reads it, and
it performs no validation of `window_size`/`overlap`/`min_tokens`.
Out-of-range list reads (which cannot occur on the executed paths) are
modelled with `getD`; `while` loops carry a fuel argument for which the
wrappers pass a sufficient value (every loop strictly advances an index
bounded by the sentence count). -/

/-- One sentence as prepared by tasks.py 322-335. -/
structure SentenceRec where
  start_char : ℕ
  end_char : ℕ
  token_count : ℕ
deriving DecidableEq, Repr, Inhabited

/-- One span record as written by tasks.py 369-377. -/
structure SpanRec where
  chunk_index : ℕ
  start_idx : ℕ
  end_idx : ℕ
  start_char : ℕ
  end_char : ℕ
  token_count : ℤ
deriving DecidableEq, Repr

/-- The token counts of the sentences, as integers. -/
def tokenCounts (sentences : List SentenceRec) : List ℤ :=
  sentences.map fun s => (s.token_count : ℤ)

/-- Sum of `ts[i], …, ts[e-1]`. -/
def sumRange (ts : List ℤ) (i e : ℕ) : ℤ := ((ts.drop i).take (e - i)).sum

/-- The inner packing loop (tasks.py 354-359): starting from sentence
`i` with `current` accumulated tokens, keep adding sentences until the
next one would push past `window_size` while at least `min_tokens` are
already held.  Returns `(end_idx, current_tokens)`. -/
def packWhile (ts : List ℤ) (window_size min_tokens : ℤ) :
    ℕ → ℕ → ℤ → ℕ × ℤ
  | 0, i, current => (i, current)
  | fuel + 1, i, current =>
    if i < ts.length then
      let next := current + ts.getD i 0
      if window_size < next ∧ min_tokens ≤ current then (i, current)
      else packWhile ts window_size min_tokens fuel (i + 1) next
    else (i, current)

/-- `prefix_tokens` (tasks.py 342-344): cumulative token counts with a
leading 0. -/
def prefixAcc : List ℤ → ℤ → List ℤ
  | [], acc => [acc]
  | t :: ts, acc => acc :: prefixAcc ts (acc + t)

/-- The full `prefix_tokens` list. -/
def prefixTokens (ts : List ℤ) : List ℤ := prefixAcc ts 0

/-- The overlap-advance loop (tasks.py 391-393): the first index whose
prefix sum reaches `target`. -/
def advanceWhile (pre : List ℤ) (target : ℤ) : ℕ → ℕ → ℕ
  | 0, next_idx => next_idx
  | fuel + 1, next_idx =>
    if next_idx < pre.length ∧ pre.getD next_idx 0 < target then
      advanceWhile pre target fuel (next_idx + 1)
    else next_idx

/-- The outer span loop (tasks.py 349-395). -/
def buildSpans (sentences : List SentenceRec) (window_size min_tokens : ℤ) :
    ℕ → ℕ → ℕ → List SpanRec
  | 0, _, _ => []
  | fuel + 1, start_idx, chunk_index =>
    if start_idx < sentences.length then
      let ts := tokenCounts sentences
      let packed := packWhile ts window_size min_tokens (ts.length + 1) start_idx 0
      let forced := packed.1 = start_idx
      let end_idx := if forced then min (start_idx + 1) sentences.length else packed.1
      let current := if forced then ts.getD start_idx 0 else packed.2
      let span : SpanRec :=
        { chunk_index := chunk_index
          start_idx := start_idx
          end_idx := end_idx
          start_char := (sentences.getD start_idx default).start_char
          end_char := (sentences.getD (end_idx - 1) default).end_char
          token_count := current }
      let step_tokens := max 1 (9 * current / 10)
      let target := (prefixTokens ts).getD start_idx 0 + step_tokens
      let next_idx := advanceWhile (prefixTokens ts) target
        ((prefixTokens ts).length + 1) (start_idx + 1)
      span :: buildSpans sentences window_size min_tokens fuel
        (min next_idx sentences.length) (chunk_index + 1)
    else []

/-- The spans produced by `chunk_text_task(note_id, window_size, overlap,
min_tokens)` from the prepared sentence list.  `overlap` is accepted and
ignored, exactly as in the source; no parameter validation occurs. -/
def chunkTextSpans (sentences : List SentenceRec)
    (window_size _overlap min_tokens : ℤ) : List SpanRec :=
  buildSpans sentences window_size min_tokens (sentences.length + 1) 0 0

/-- The relation "the later object was compared against the earlier kept
one and found not to be a duplicate". -/
def notDup (x y : ExtractedObject) : Prop :=
  isDupOf (normText y.canonical_text) (normText x.canonical_text) = false

/-- First candidate of the C1 counterexample: five words. -/
def dupA : ExtractedObject :=
  { id := "temp_0", type := .Idea, canonical_text := "a b c d e", confidence := 1 }

/-- Second candidate of the C1 counterexample: the same words minus one,
overlap exactly 4/5 in the code's measure (and exactly 4/5 as
intersection-over-union as well, since its word set is contained in the
first's). -/
def dupB : ExtractedObject :=
  { id := "temp_1", type := .Idea, canonical_text := "a b c d", confidence := 1 }

/-- An oracle whose responses are well-formed strings that fail both
strict parsing and repair on every attempt (C6 witness input). -/
def malformedOracle : BatchOracle Unit Unit :=
  { firstResp := .success "not json"
    retryResp := .success "still not json"
    jsonLoads := fun _ => none
    attemptRepair := fun _ => none
    getObjects := fun _ => []
    validate := fun _ _ => none }

/-- "This attempt produced no parseable JSON": the call raised, or the
response string fails strict parsing and repair. -/
def respUnparsed {J R : Type} (o : BatchOracle J R) : LLMResp → Prop
  | .failure => True
  | .success raw => parseResponse o raw = none

/-! ## Helper lemmas -/

lemma roundHalfEven_intCast (n : ℤ) : roundHalfEven (n : ℚ) = n := by
  unfold roundHalfEven
  have h : ⌊(n : ℚ)⌋ = n := Int.floor_intCast n
  rw [h]
  norm_num

lemma round4_div_ten_thousand (n : ℤ) :
    round4 ((n : ℚ) / 10000) = (n : ℚ) / 10000 := by
  unfold round4
  have h : ((n : ℚ) / 10000) * 10000 = (n : ℚ) := by ring
  rw [h, roundHalfEven_intCast]

lemma round4_one : round4 1 = 1 := by
  have h : (1 : ℚ) = ((10000 : ℤ) : ℚ) / 10000 := by norm_num
  rw [h, round4_div_ten_thousand]

lemma round4_zero : round4 0 = 0 := by
  have h : (0 : ℚ) = ((0 : ℤ) : ℚ) / 10000 := by norm_num
  rw [h, round4_div_ten_thousand]

lemma priorityBase_pos (p : String) : (1 : ℚ)/5 ≤ priorityBase p := by
  unfold priorityBase
  split_ifs <;> norm_num

lemma round4_min_max (x : ℚ) (hx : 0 ≤ x) :
    round4 (min x 1) = round4 (max 0 (min 1 x)) := by
  rw [min_comm, max_eq_right (le_min zero_le_one hx)]

/-! ## C5 — the urgency-score formula of `_compute_urgency_score` -/

/-- **C5.** `IntelligenceLayer._compute_urgency_score` computes exactly
the spec's formula: 0 for terminal statuses, otherwise priority base plus
due-date increment plus in-progress bump, clamped to `[0,1]` and rounded
to 4 decimals; in particular a high-priority task overdue by 20 days
scores 1.0 and a done task scores 0.0 regardless of due date. -/
theorem C5_urgency_score_formula :
    (∀ (priority status : String) (due_in_days : Option ℤ),
      computeUrgencyScore priority status due_in_days =
        urgencySpec priority status due_in_days) ∧
    computeUrgencyScore "high" "todo" (some (-20)) = 1 ∧
    (∀ (priority : String) (due_in_days : Option ℤ),
      computeUrgencyScore priority "done" due_in_days = 0) := by
  have hmain : ∀ (priority status : String) (due_in_days : Option ℤ),
      computeUrgencyScore priority status due_in_days =
        urgencySpec priority status due_in_days := by
    intro p s d
    by_cases hterm : s = "done" ∨ s = "archived"
    · simp only [computeUrgencyScore, urgencySpec, if_pos hterm]
    · simp only [computeUrgencyScore, urgencySpec, if_neg hterm]
      have hbase := priorityBase_pos p
      have hincr : (0:ℚ) ≤
          (match d with
           | none => (1:ℚ)/20
           | some d =>
             if d < 0 then
               let lateness : ℤ := min |d| 14
               7/20 + (lateness : ℚ) / 14 * (3/10)
             else if d = 0 then 3/10
             else if d ≤ 3 then 1/5
             else if d ≤ 7 then 1/10
             else 1/50) := by
        cases d with
        | none => norm_num
        | some d =>
          by_cases h0 : d < 0
          · simp only [if_pos h0]
            have hlat : (0:ℚ) ≤ ((min |d| 14 : ℤ) : ℚ) := by
              have : (0:ℤ) ≤ min |d| 14 := le_min (abs_nonneg d) (by norm_num)
              exact_mod_cast this
            positivity
          · simp only [if_neg h0]
            split_ifs <;> norm_num
      by_cases hprog : s = "in_progress"
      · simp only [if_pos hprog]
        rw [round4_min_max _ (by linarith), add_assoc]
      · simp only [if_neg hprog]
        rw [round4_min_max _ (by linarith), add_zero]
  refine ⟨hmain, ?_, ?_⟩
  · have h1 : computeUrgencyScore "high" "todo" (some (-20)) =
        round4 (min ((4:ℚ)/5 + (7/20 + ((min |(-20:ℤ)| 14 : ℤ) : ℚ) / 14 * (3/10))) 1) := by
      simp [computeUrgencyScore, priorityBase]
    rw [h1]
    norm_num [round4_one]
  · intro p d
    simp [computeUrgencyScore]

/-! ## C10 — the two urgency scorers are *not* equivalent -/

/-- **C10 counterexample.** For a `medium`-priority `todo` task 14 days
overdue, `_compute_urgency_score` yields 1.0 while `_enrich_task` yields
0.95, so the two urgency implementations disagree. -/
theorem C10_counterexample :
    computeUrgencyScore "medium" "todo" (some (-14)) = 1 ∧
    enrichUrgencyScore "medium" "todo" (some (-14)) = 19/20 ∧
    computeUrgencyScore "medium" "todo" (some (-14)) ≠
      enrichUrgencyScore "medium" "todo" (some (-14)) := by
  have h1 : computeUrgencyScore "medium" "todo" (some (-14)) = 1 := by
    have h : computeUrgencyScore "medium" "todo" (some (-14)) =
        round4 (min ((1:ℚ)/2 + (7/20 + ((min |(-14:ℤ)| 14 : ℤ) : ℚ) / 14 * (3/10))) 1) := by
      simp [computeUrgencyScore, priorityBase]
    rw [h]
    norm_num [round4_one]
  have h2 : enrichUrgencyScore "medium" "todo" (some (-14)) = 19/20 := by
    have h : enrichUrgencyScore "medium" "todo" (some (-14)) =
        round4 (min ((1:ℚ)/2 + 9/20) 1) := by
      simp [enrichUrgencyScore, priorityBase]
    rw [h]
    have h95 : min ((1:ℚ)/2 + 9/20) 1 = ((9500 : ℤ) : ℚ) / 10000 := by norm_num
    rw [h95, round4_div_ten_thousand]
    norm_num
  refine ⟨h1, h2, ?_⟩
  rw [h1, h2]
  norm_num

/-- **C10 amended.** The two urgency scorers agree whenever the status is
terminal, there is no due date, or the due date is between today and 7
days out; they differ in general (the overdue increment is graded in
`intelligence.py` but a flat +0.45 in `search.py`, and a due date more
than 7 days out adds +0.02 in `intelligence.py` but nothing in
`search.py`). -/
theorem C10_amended_agreement (priority status : String)
    (due_in_days : Option ℤ)
    (h : due_in_days = none ∨
      (∃ d, due_in_days = some d ∧ 0 ≤ d ∧ d ≤ 7) ∨
      status = "done" ∨ status = "archived") :
    computeUrgencyScore priority status due_in_days =
      enrichUrgencyScore priority status due_in_days := by
  by_cases hterm : status = "done" ∨ status = "archived"
  · simp [computeUrgencyScore, enrichUrgencyScore, if_pos hterm, round4_zero]
  · rcases h with hnone | ⟨d, hd, hd0, hd7⟩ | hs | hs
    · subst hnone
      simp [computeUrgencyScore, enrichUrgencyScore, if_neg hterm]
    · subst hd
      have hneg : ¬ d < 0 := by omega
      simp only [computeUrgencyScore, enrichUrgencyScore, if_neg hterm,
        if_neg hneg]
      by_cases h0 : d = 0
      · simp [h0]
      · have h3 : d ≤ 3 ∨ ¬ d ≤ 3 := em _
        simp only [if_neg h0]
        rcases h3 with h3 | h3
        · simp [if_pos h3]
        · simp [if_neg h3, if_pos hd7]
    · exact absurd (Or.inl hs) hterm
    · exact absurd (Or.inr hs) hterm

/-- **C10 amended, witness.** A concrete agreeing instance: high-priority
in-progress task due in 2 days. -/
theorem C10_amended_agreement_witness :
    ((some (2:ℤ) = (none : Option ℤ)) ∨
      (∃ d, some (2:ℤ) = some d ∧ 0 ≤ d ∧ d ≤ 7) ∨
      ("in_progress" = "done") ∨ ("in_progress" = "archived")) ∧
    computeUrgencyScore "high" "in_progress" (some 2) =
      enrichUrgencyScore "high" "in_progress" (some 2) :=
  ⟨Or.inr (Or.inl ⟨2, rfl, by norm_num, by norm_num⟩),
    C10_amended_agreement "high" "in_progress" (some 2)
      (Or.inr (Or.inl ⟨2, rfl, by norm_num, by norm_num⟩))⟩

/-! ## Helper lemmas: decimal IDs -/

lemma digitChar_toNat_sub (d : Nat) (hd : d < 10) :
    (Nat.digitChar d).toNat - 48 = d := by
  interval_cases d <;> rfl

lemma decodeDigits_append_single (l : List Char) (c : Char) :
    decodeDigits (l ++ [c]) = 10 * decodeDigits l + (c.toNat - 48) := by
  unfold decodeDigits
  rw [List.foldl_append]
  rfl

lemma decodeDigits_natReprSpec (n : Nat) : decodeDigits (natReprSpec n) = n := by
  induction n using Nat.strong_induction_on with
  | _ n ih =>
    rw [natReprSpec]
    by_cases h : n < 10
    · rw [if_pos h]
      show 10 * 0 + ((Nat.digitChar n).toNat - 48) = n
      rw [digitChar_toNat_sub n h]
      omega
    · rw [if_neg h]
      rw [decodeDigits_append_single,
        ih (n / 10) (Nat.div_lt_self (by omega) (by norm_num)),
        digitChar_toNat_sub (n % 10) (Nat.mod_lt n (by norm_num))]
      omega

lemma toDecAux_eq_spec :
    ∀ (fuel n : Nat) (acc : List Char), n < fuel →
      toDecAux fuel n acc = natReprSpec n ++ acc := by
  intro fuel
  induction fuel with
  | zero => intro n acc h; omega
  | succ fuel ih =>
    intro n acc h
    rw [toDecAux, natReprSpec]
    by_cases h10 : n < 10
    · rw [if_pos h10, if_pos h10]
      have : n % 10 = n := Nat.mod_eq_of_lt h10
      rw [this]
      rfl
    · rw [if_neg h10, if_neg h10]
      rw [ih (n / 10) _ (by omega)]
      rw [List.append_assoc]
      rfl

lemma natRepr_eq_spec (n : Nat) : natRepr n = natReprSpec n := by
  unfold natRepr
  rw [toDecAux_eq_spec (n + 1) n [] (by omega), List.append_nil]

lemma decodeDigits_replicate_zero (k : Nat) (l : List Char) :
    decodeDigits (List.replicate k '0' ++ l) = decodeDigits l := by
  induction k with
  | zero => rfl
  | succ k ih =>
    rw [List.replicate_succ, List.cons_append]
    show decodeDigits (List.replicate k '0' ++ l) = decodeDigits l
    exact ih

lemma fmt3_injective : Function.Injective fmt3 := by
  intro m n h
  unfold fmt3 at h
  have hlist :
      List.replicate (3 - (natRepr m).length) '0' ++ natRepr m =
      List.replicate (3 - (natRepr n).length) '0' ++ natRepr n := by
    have := congrArg String.data h
    simpa using this
  have hm := congrArg decodeDigits hlist
  rw [decodeDigits_replicate_zero, decodeDigits_replicate_zero,
    natRepr_eq_spec, natRepr_eq_spec,
    decodeDigits_natReprSpec, decodeDigits_natReprSpec] at hm
  exact hm

/-! ## Helper lemmas: the deduplicator -/

lemma overlapQ_comm (a b : Finset (List Char)) : overlapQ a b = overlapQ b a := by
  unfold overlapQ
  rw [Finset.inter_comm, Nat.max_comm]

lemma overlapQ_le_of_isDupOf_false {a b : String}
    (h : isDupOf a b = false) : overlapQ (wordSet a) (wordSet b) ≤ 4/5 := by
  unfold isDupOf at h
  by_cases hemp : wordSet a = ∅ ∨ wordSet b = ∅
  · rcases hemp with he | he <;> unfold overlapQ
    · rw [he, Finset.empty_inter]
      norm_num
    · rw [he, Finset.inter_empty]
      norm_num
  · rw [if_neg hemp] at h
    have := of_decide_eq_false h
    exact le_of_not_lt this

lemma dedupLoop_sublist : ∀ (l : List ExtractedObject) (seen : List String),
    List.Sublist (dedupLoop l seen) l := by
  intro l
  induction l with
  | nil => intro seen; simp [dedupLoop]
  | cons obj rest ih =>
    intro seen
    rw [dedupLoop]
    by_cases h : seen.any fun s => isDupOf (normText obj.canonical_text) s
    · rw [if_pos h]
      exact (ih seen).trans (List.sublist_cons_self obj rest)
    · rw [if_neg h]
      exact (ih _).cons₂ obj

lemma dedupLoop_pairwise : ∀ (l : List ExtractedObject) (seen : List String),
    (dedupLoop l seen).Pairwise notDup ∧
    ∀ y ∈ dedupLoop l seen, ∀ s ∈ seen,
      isDupOf (normText y.canonical_text) s = false := by
  intro l
  induction l with
  | nil => intro seen; exact ⟨List.Pairwise.nil, by simp [dedupLoop]⟩
  | cons obj rest ih =>
    intro seen
    rw [dedupLoop]
    by_cases h : seen.any fun s => isDupOf (normText obj.canonical_text) s
    · rw [if_pos h]
      exact ih seen
    · rw [if_neg h]
      obtain ⟨pw, mem⟩ := ih (seen ++ [normText obj.canonical_text])
      have hobj : ∀ s ∈ seen, isDupOf (normText obj.canonical_text) s = false := by
        intro s hs
        have := List.any_eq_false.mp (Bool.of_not_eq_true h) s hs
        exact Bool.not_eq_true _ ▸ (by simpa using this)
      refine ⟨List.Pairwise.cons ?_ pw, ?_⟩
      · intro y hy
        exact mem y hy (normText obj.canonical_text)
          (List.mem_append_right _ (List.mem_singleton_self _))
      · intro y hy s hs
        rcases List.mem_cons.mp hy with rfl | hy'
        · exact hobj s hs
        · exact mem y hy' s (List.mem_append_left _ hs)

lemma dedupLoop_no_drop : ∀ (l : List ExtractedObject) (seen : List String),
    l.Pairwise notDup →
    (∀ y ∈ l, ∀ s ∈ seen, isDupOf (normText y.canonical_text) s = false) →
    dedupLoop l seen = l := by
  intro l
  induction l with
  | nil => intro seen _ _; rfl
  | cons obj rest ih =>
    intro seen hpw hseen
    rw [dedupLoop]
    have hany : (seen.any fun s => isDupOf (normText obj.canonical_text) s) = false := by
      rw [List.any_eq_false]
      intro s hs
      simp [hseen obj (List.mem_cons_self obj rest) s hs]
    rw [hany]
    simp only [Bool.false_eq_true, if_false]
    congr 1
    apply ih
    · exact hpw.of_cons
    · intro y hy s hs
      rcases List.mem_append.mp hs with hs' | hs'
      · exact hseen y (List.mem_cons_of_mem obj hy) s hs'
      · rw [List.mem_singleton.mp hs']
        exact (List.pairwise_cons.mp hpw).1 y hy

lemma mem_renumberFrom : ∀ (k : Nat) (l : List ExtractedObject) (y : ExtractedObject),
    y ∈ renumberFrom k l → ∃ m b, b ∈ l ∧ y = { b with id := fmt3 m } := by
  intro k l
  induction l generalizing k with
  | nil => intro y hy; simp [renumberFrom] at hy
  | cons a t ih =>
    intro y hy
    rw [renumberFrom] at hy
    rcases List.mem_cons.mp hy with rfl | hy'
    · exact ⟨k, a, List.mem_cons_self a t, rfl⟩
    · obtain ⟨m, b, hb, hyb⟩ := ih (k + 1) y hy'
      exact ⟨m, b, List.mem_cons_of_mem a hb, hyb⟩

lemma renumberFrom_pairwise {R : ExtractedObject → ExtractedObject → Prop}
    (hR : ∀ (a b : ExtractedObject) (k m : Nat), R a b →
      R { a with id := fmt3 k } { b with id := fmt3 m }) :
    ∀ (k : Nat) (l : List ExtractedObject),
      l.Pairwise R → (renumberFrom k l).Pairwise R := by
  intro k l
  induction l generalizing k with
  | nil => intro _; exact List.Pairwise.nil
  | cons a t ih =>
    intro hpw
    rw [renumberFrom]
    refine List.Pairwise.cons ?_ (ih (k + 1) hpw.of_cons)
    intro y hy
    obtain ⟨m, b, hb, rfl⟩ := mem_renumberFrom (k + 1) t y hy
    exact hR a b k m ((List.pairwise_cons.mp hpw).1 b hb)

lemma renumberFrom_idem : ∀ (k : Nat) (l : List ExtractedObject),
    renumberFrom k (renumberFrom k l) = renumberFrom k l := by
  intro k l
  induction l generalizing k with
  | nil => rfl
  | cons a t ih =>
    rw [renumberFrom, renumberFrom]
    rw [ih (k + 1)]

lemma renumberFrom_map_id : ∀ (k : Nat) (l : List ExtractedObject),
    (renumberFrom k l).map (fun o => o.id) =
      (List.range' k l.length).map fmt3 := by
  intro k l
  induction l generalizing k with
  | nil => rfl
  | cons a t ih =>
    rw [renumberFrom, List.map_cons, ih (k + 1)]
    rfl

/-! ## C1 — dedup drops on overlap strictly above 0.8 -/

/-- **C1 counterexample.** Two candidates whose lower-cased word sets
overlap at exactly 80% — in the code's `|A∩B| / max(|A|,|B|)` measure and
in the intersection-over-union (Jaccard) measure alike — both survive
deduplication, refuting "no two surviving objects have word-set Jaccard
overlap of 80% or more". -/
theorem C1_counterexample :
    (deduplicateObjects [dupA, dupB]).map (fun o => o.canonical_text) =
      ["a b c d e", "a b c d"] ∧
    (wordSet (normText dupA.canonical_text) ∩
      wordSet (normText dupB.canonical_text)).card = 4 ∧
    (wordSet (normText dupA.canonical_text) ∪
      wordSet (normText dupB.canonical_text)).card = 5 ∧
    max (wordSet (normText dupA.canonical_text)).card
      (wordSet (normText dupB.canonical_text)).card = 5 ∧
    overlapQ (wordSet (normText dupA.canonical_text))
      (wordSet (normText dupB.canonical_text)) = 4/5 := by
  have hinter : (wordSet (normText dupA.canonical_text) ∩
      wordSet (normText dupB.canonical_text)).card = 4 := by decide
  have hmax : max (wordSet (normText dupA.canonical_text)).card
      (wordSet (normText dupB.canonical_text)).card = 5 := by decide
  have hdup : isDupOf (normText dupB.canonical_text)
      (normText dupA.canonical_text) = false := by
    unfold isDupOf
    rw [if_neg (by decide)]
    rw [decide_eq_false_iff_not]
    unfold overlapQ
    rw [Finset.inter_comm, hinter, Nat.max_comm, hmax]
    norm_num
  have hsort : [dupA, dupB].insertionSort objLE = [dupA, dupB] := rfl
  have hloop : dedupLoop [dupA, dupB] [] = [dupA, dupB] := by
    rw [dedupLoop]
    rw [if_neg (by simp)]
    rw [dedupLoop]
    rw [if_neg (by simp [hdup])]
    rfl
  refine ⟨?_, hinter, by decide, hmax, ?_⟩
  · unfold deduplicateObjects
    rw [hsort, hloop]
    rfl
  · unfold overlapQ
    rw [hinter, hmax]
    norm_num

/-- **C1 amended.** The deduplicator drops an object exactly when its
overlap with an already-kept object *strictly* exceeds 0.8 in the
`|A∩B| / max(|A|,|B|)` measure (with empty word sets never compared);
consequently in the returned list every pair of surviving objects has
overlap at most 0.8 — pairs at exactly 80% may both survive. -/
theorem C1_amended_survivor_overlap (l : List ExtractedObject) :
    (deduplicateObjects l).Pairwise fun x y =>
      overlapQ (wordSet (normText x.canonical_text))
        (wordSet (normText y.canonical_text)) ≤ 4/5 := by
  unfold deduplicateObjects
  have hpw := (dedupLoop_pairwise (l.insertionSort objLE) []).1
  have hpw' := renumberFrom_pairwise
    (R := notDup) (fun a b k m hab => hab) 1 _ hpw
  refine hpw'.imp ?_
  intro a b hab
  have := overlapQ_le_of_isDupOf_false hab
  rw [overlapQ_comm] at this
  exact this

/-! ## C8 — deduplication is idempotent -/

/-- **C8.** Running `_deduplicate_objects` on its own output drops
nothing and changes nothing: the second pass returns the identical list
(same length, same canonical texts, same dense IDs). -/
theorem C8_dedup_idempotent (l : List ExtractedObject) :
    deduplicateObjects (deduplicateObjects l) = deduplicateObjects l := by
  unfold deduplicateObjects
  set D0 := dedupLoop (l.insertionSort objLE) [] with hD0
  have hsorted0 : List.Sorted objLE (l.insertionSort objLE) :=
    List.sorted_insertionSort objLE l
  have hsubl : List.Sublist D0 (l.insertionSort objLE) := dedupLoop_sublist _ _
  have hsortedD0 : List.Sorted objLE D0 := List.Pairwise.sublist hsubl hsorted0
  have hsortedD : List.Sorted objLE (renumberFrom 1 D0) :=
    renumberFrom_pairwise (R := objLE) (fun a b k m hab => hab) 1 D0 hsortedD0
  have hsort_eq : (renumberFrom 1 D0).insertionSort objLE = renumberFrom 1 D0 :=
    List.Sorted.insertionSort_eq hsortedD
  have hpwD : (renumberFrom 1 D0).Pairwise notDup :=
    renumberFrom_pairwise (R := notDup) (fun a b k m hab => hab) 1 D0
      (dedupLoop_pairwise _ _).1
  have hloop : dedupLoop (renumberFrom 1 D0) [] = renumberFrom 1 D0 :=
    dedupLoop_no_drop _ [] hpwD (by intro y _ s hs; simp at hs)
  rw [hsort_eq, hloop, renumberFrom_idem]

/-! ## C3 — exactly one mention per surviving object -/

lemma deduplicateObjects_ids_nodup (l : List ExtractedObject) :
    ((deduplicateObjects l).map fun o => o.id).Nodup := by
  unfold deduplicateObjects
  rw [renumberFrom_map_id]
  exact (List.nodup_range' ..).map fmt3_injective

/-- **C3.** `extract` produces exactly one `Mention` per surviving
object: the mention list's object ids are, position for position, the
object list's ids (hence the lists have equal length and the i-th
mention points at the i-th object); no object id occurs in two mentions;
and an empty object set yields an empty mention list.  This holds for
every behaviour of the reasoning-service passes and of the span
resolution. -/
theorem C3_one_mention_per_object
    (batchResult : List ExtractedObject)
    (relationships : List ExtractedObject → List Link)
    (note_id : String) (resolveSpan : ExtractedObject → String) :
    ((extract batchResult relationships note_id resolveSpan).mentions.map
        fun m => m.object_id) =
      ((extract batchResult relationships note_id resolveSpan).objects.map
        fun o => o.id) ∧
    ((extract batchResult relationships note_id resolveSpan).mentions.map
        fun m => m.object_id).Nodup ∧
    (extract [] relationships note_id resolveSpan).mentions = [] := by
  by_cases hb : batchResult = []
  · subst hb
    refine ⟨?_, ?_, ?_⟩ <;> simp [extract]
  · have hmap : ((extract batchResult relationships note_id resolveSpan).mentions.map
        fun m => m.object_id) =
        ((extract batchResult relationships note_id resolveSpan).objects.map
          fun o => o.id) := by
      simp [extract, hb, List.map_map]
    refine ⟨hmap, ?_, by simp [extract]⟩
    rw [hmap]
    simp only [extract, hb, if_false]
    exact deduplicateObjects_ids_nodup batchResult

/-! ## C4 — graph edges always have both endpoints -/

lemma addEdge_nodes (g : KnowledgeGraph) (u v : String) (d : EdgeData) :
    (addEdge g u v d).nodes = g.nodes := by
  unfold addEdge
  split_ifs <;> rfl

lemma hasNode_addEdge (g : KnowledgeGraph) (u v : String) (d : EdgeData)
    (x : String) : hasNode (addEdge g u v d) x = hasNode g x := by
  unfold hasNode
  rw [addEdge_nodes]

lemma hasNode_addNode (g : KnowledgeGraph) (i : String) (d : NodeData)
    (x : String) (h : hasNode g x = true) :
    hasNode (addNode g i d) x = true := by
  unfold hasNode at h ⊢
  unfold addNode
  obtain ⟨p, hp, hpx⟩ := List.any_eq_true.mp h
  split_ifs with hex
  · refine List.any_eq_true.mpr ?_
    refine ⟨if p.1 = i then (i, d) else p, List.mem_map.mpr ⟨p, hp, rfl⟩, ?_⟩
    by_cases hpi : p.1 = i
    · have hx : i = x := by rw [← hpi]; exact of_decide_eq_true hpx
      simp [hpi, hx]
    · simpa [hpi] using hpx
  · refine List.any_eq_true.mpr ⟨p, List.mem_append_left _ hp, hpx⟩

lemma hasNode_addObjects (objects : List ExtractedObject) :
    ∀ (g : KnowledgeGraph) (x : String), hasNode g x = true →
      hasNode (addObjects g objects) x = true := by
  induction objects with
  | nil => intro g x h; exact h
  | cons obj rest ih =>
    intro g x h
    exact ih _ x (hasNode_addNode g obj.id _ x h)

lemma addNode_edges (g : KnowledgeGraph) (i : String) (d : NodeData) :
    (addNode g i d).edges = g.edges := by
  unfold addNode
  split_ifs <;> rfl

lemma addObjects_cons (g : KnowledgeGraph) (obj : ExtractedObject)
    (rest : List ExtractedObject) :
    addObjects g (obj :: rest) =
      addObjects (addNode g obj.id
        { type := obj.type, canonical_text := obj.canonical_text
          confidence := obj.confidence }) rest := rfl

lemma addObjects_edges (objects : List ExtractedObject) :
    ∀ g : KnowledgeGraph, (addObjects g objects).edges = g.edges := by
  induction objects with
  | nil => intro g; rfl
  | cons obj rest ih =>
    intro g
    rw [addObjects_cons, ih, addNode_edges]

lemma addLinks_cons (g : KnowledgeGraph) (link : Link) (rest : List Link) :
    addLinks g (link :: rest) =
      addLinks
        (if hasNode g link.source_id ∧ hasNode g link.target_id then
          addEdge g link.source_id link.target_id
            { type := link.type, confidence := link.confidence }
        else g) rest := rfl

lemma addLinks_nodes (links : List Link) :
    ∀ g : KnowledgeGraph, (addLinks g links).nodes = g.nodes := by
  induction links with
  | nil => intro g; rfl
  | cons link rest ih =>
    intro g
    rw [addLinks_cons]
    by_cases h : hasNode g link.source_id ∧ hasNode g link.target_id
    · rw [if_pos h, ih, addEdge_nodes]
    · rw [if_neg h, ih]

lemma endpointsPresent_addEdge (g : KnowledgeGraph) (u v : String)
    (d : EdgeData) (hg : endpointsPresent g)
    (hu : hasNode g u = true) (hv : hasNode g v = true) :
    endpointsPresent (addEdge g u v d) := by
  intro e he
  rw [hasNode_addEdge, hasNode_addEdge]
  unfold addEdge at he
  split_ifs at he with hex
  · simp only at he
    obtain ⟨e0, he0, hmap⟩ := List.mem_map.mp he
    by_cases h0 : e0.1 = u ∧ e0.2.1 = v
    · rw [if_pos h0] at hmap
      subst hmap
      exact ⟨hu, hv⟩
    · rw [if_neg h0] at hmap
      subst hmap
      exact hg e0 he0
  · simp only at he
    rcases List.mem_append.mp he with h0 | h0
    · exact hg e h0
    · rcases List.mem_singleton.mp h0 with rfl
      exact ⟨hu, hv⟩

lemma endpointsPresent_addLinks (links : List Link) :
    ∀ g : KnowledgeGraph, endpointsPresent g →
      endpointsPresent (addLinks g links) := by
  induction links with
  | nil => intro g hg; exact hg
  | cons link rest ih =>
    intro g hg
    rw [addLinks_cons]
    by_cases h : hasNode g link.source_id ∧ hasNode g link.target_id
    · rw [if_pos h]
      exact ih _ (endpointsPresent_addEdge g _ _ _ hg h.1 h.2)
    · rw [if_neg h]
      exact ih _ hg

lemma endpointsPresent_addObjects (objects : List ExtractedObject)
    (g : KnowledgeGraph) (hg : endpointsPresent g) :
    endpointsPresent (addObjects g objects) := by
  intro e he
  rw [addObjects_edges] at he
  obtain ⟨hu, hv⟩ := hg e he
  exact ⟨hasNode_addObjects objects g _ hu, hasNode_addObjects objects g _ hv⟩

/-- **C4.** A link with a missing endpoint is silently skipped by
`add_links` (the graph is returned unchanged, no error), and after any
sequence of `add_objects` / `add_links` calls starting from the empty
graph, every edge has both of its endpoints present as nodes. -/
theorem C4_edge_endpoints_invariant :
    (∀ (g : KnowledgeGraph) (link : Link),
      (hasNode g link.source_id = false ∨ hasNode g link.target_id = false) →
      addLinks g [link] = g) ∧
    ∀ ops : List GraphOp, endpointsPresent (applyOps emptyGraph ops) := by
  constructor
  · intro g link h
    unfold addLinks
    rw [List.foldl_cons]
    have hcond : ¬ (hasNode g link.source_id ∧ hasNode g link.target_id) := by
      rcases h with h | h <;> simp [h]
    rw [if_neg hcond]
    rfl
  · intro ops
    have hinv : ∀ (ops : List GraphOp) (g : KnowledgeGraph),
        endpointsPresent g → endpointsPresent (applyOps g ops) := by
      intro ops
      induction ops with
      | nil => intro g hg; exact hg
      | cons op rest ih =>
        intro g hg
        have hstep : applyOps g (op :: rest) = applyOps (applyOp g op) rest := rfl
        rw [hstep]
        cases op with
        | addObjs objects => exact ih _ (endpointsPresent_addObjects objects g hg)
        | addLnks links => exact ih _ (endpointsPresent_addLinks links g hg)
    exact hinv ops emptyGraph (by intro e he; simp [emptyGraph] at he)

/-- **C4 witness.** Concrete instance: adding a link between two absent
nodes to the empty graph leaves it unchanged, and the resulting graph
satisfies the endpoint invariant. -/
theorem C4_edge_endpoints_invariant_witness :
    (hasNode emptyGraph "obj_001" = false ∨
      hasNode emptyGraph "obj_002" = false) ∧
    addLinks emptyGraph
      [{ source_id := "obj_001", target_id := "obj_002",
         type := .Supports, confidence := 1 }] = emptyGraph ∧
    endpointsPresent (applyOps emptyGraph
      [.addLnks [{ source_id := "obj_001", target_id := "obj_002",
                   type := .Supports, confidence := 1 }]]) :=
  ⟨Or.inl rfl,
    C4_edge_endpoints_invariant.1 emptyGraph
      { source_id := "obj_001", target_id := "obj_002",
        type := .Supports, confidence := 1 } (Or.inl rfl),
    C4_edge_endpoints_invariant.2
      [.addLnks [{ source_id := "obj_001", target_id := "obj_002",
                   type := .Supports, confidence := 1 }]]⟩

/-! ## C6 — repair, a single retry, then an empty result -/

/-- **C6.** For every oracle behaviour: at most two reasoning-service
calls are ever made; when strict parsing fails the parse result is
exactly the repair result; a first attempt with no parseable JSON (call
failure included) forces exactly one retry (two calls total); and when
the retry also yields no parseable JSON the object pass returns the
empty list — it never propagates an exception, being a total function
into `List ExtractedObject × ℕ`. -/
theorem C6_object_pass_retry_discipline {J R : Type} (o : BatchOracle J R) :
    (extractBatchModel o).2 ≤ 2 ∧
    (∀ raw, o.jsonLoads raw = none →
      parseResponse o raw = o.attemptRepair raw) ∧
    (respUnparsed o o.firstResp → (extractBatchModel o).2 = 2) ∧
    (respUnparsed o o.firstResp → respUnparsed o o.retryResp →
      extractBatchModel o = ([], 2)) := by
  have hretry_count : (extractBatchRetry o).2 = 1 := by
    cases hr : o.retryResp with
    | failure => simp [extractBatchRetry, hr]
    | success raw =>
      cases hp : parseResponse o raw with
      | none => simp [extractBatchRetry, hr, hp]
      | some parsed => simp [extractBatchRetry, hr, hp]
  have hretry_empty : respUnparsed o o.retryResp → extractBatchRetry o = ([], 1) := by
    intro h
    cases hr : o.retryResp with
    | failure => simp [extractBatchRetry, hr]
    | success raw =>
      rw [hr] at h
      simp only [respUnparsed] at h
      simp [extractBatchRetry, hr, h]
  refine ⟨?_, ?_, ?_, ?_⟩
  · cases hf : o.firstResp with
    | failure => simp [extractBatchModel, hf, hretry_count]
    | success raw =>
      cases hp : parseResponse o raw with
      | none => simp [extractBatchModel, hf, hp, hretry_count]
      | some parsed => simp [extractBatchModel, hf, hp]
  · intro raw h
    unfold parseResponse
    rw [h]
  · intro hfirst
    cases hf : o.firstResp with
    | failure => simp [extractBatchModel, hf, hretry_count]
    | success raw =>
      rw [hf] at hfirst
      simp only [respUnparsed] at hfirst
      simp [extractBatchModel, hf, hfirst, hretry_count]
  · intro hfirst hretry
    cases hf : o.firstResp with
    | failure => simp [extractBatchModel, hf, hretry_empty hretry]
    | success raw =>
      rw [hf] at hfirst
      simp only [respUnparsed] at hfirst
      simp [extractBatchModel, hf, hfirst, hretry_empty hretry]

/-- **C6 witness.** The concrete doubly-malformed oracle: both responses
fail strict parsing and repair, and the pass returns the empty object
list after exactly two calls. -/
theorem C6_object_pass_retry_discipline_witness :
    respUnparsed malformedOracle malformedOracle.firstResp ∧
    respUnparsed malformedOracle malformedOracle.retryResp ∧
    extractBatchModel malformedOracle = ([], 2) :=
  ⟨rfl, rfl,
    (C6_object_pass_retry_discipline malformedOracle).2.2.2 rfl rfl⟩

/-! ## C7 — parameter validation lives in `sliding_window_ranges` only -/

/-- **C7 counterexample.** `chunk_text_task` performs no validation of
`window_size`/`overlap` (it never even reads `overlap`): called with the
malformed parameters `window_size = -1`, `overlap = -5` it raises
nothing and produces a span. -/
theorem C7_counterexample :
    chunkTextSpans [{ start_char := 0, end_char := 1, token_count := 1 }]
        (-1) (-5) 0 =
      [{ chunk_index := 0, start_idx := 0, end_idx := 1,
         start_char := 0, end_char := 1, token_count := 1 }] ∧
    (chunkTextSpans [{ start_char := 0, end_char := 1, token_count := 1 }]
        (-1) (-5) 0).length ≠ 0 := by
  constructor
  · decide
  · decide

/-- **C7 amended.** The token-window helper `sliding_window_ranges`
(chunk_text.py; duplicated as `_window_ranges` in tasks.py) does raise a
`ValueError` immediately on every malformed parameterization —
non-positive window, negative overlap, or overlap ≥ window — before
producing any range; the sentence-packing `chunk_text_task` performs no
such validation. -/
theorem C7_amended_validation (n_tokens window_size overlap : ℤ)
    (h : window_size ≤ 0 ∨ overlap < 0 ∨ window_size ≤ overlap) :
    ∃ msg, slidingWindowRanges n_tokens window_size overlap =
      Except.error msg := by
  unfold slidingWindowRanges
  split_ifs with h1 h2 h3
  · exact ⟨_, rfl⟩
  · exact ⟨_, rfl⟩
  · exact ⟨_, rfl⟩
  · omega

/-- **C7 amended, witness.** `window_size = 0` is rejected. -/
theorem C7_amended_validation_witness :
    ((0:ℤ) ≤ 0 ∨ (0:ℤ) < 0 ∨ (0:ℤ) ≤ 0) ∧
    ∃ msg, slidingWindowRanges 5 0 0 = Except.error msg :=
  ⟨Or.inl le_rfl, C7_amended_validation 5 0 0 (Or.inl le_rfl)⟩

/-! ## Helper lemmas: the sentence-packing segmenter -/

lemma tokenCounts_length (sentences : List SentenceRec) :
    (tokenCounts sentences).length = sentences.length := List.length_map ..

lemma sumRange_self (ts : List ℤ) (i : ℕ) : sumRange ts i i = 0 := by
  unfold sumRange
  simp

lemma sumRange_succ (ts : List ℤ) (i j : ℕ) (h1 : i ≤ j) (h2 : j < ts.length) :
    sumRange ts i (j + 1) = sumRange ts i j + ts.getD j 0 := by
  unfold sumRange
  have hidx : j + 1 - i = (j - i) + 1 := by omega
  rw [hidx, List.take_succ, List.getElem?_drop]
  have hij : i + (j - i) = j := by omega
  rw [hij, List.getElem?_eq_getElem h2, List.sum_append]
  rw [List.getD_eq_getElem ts 0 h2]
  simp

lemma sumRange_front (ts : List ℤ) (i e : ℕ) (hi : i < ts.length)
    (he : i + 1 ≤ e) :
    sumRange ts i e = ts.getD i 0 + sumRange ts (i + 1) e := by
  unfold sumRange
  rw [List.drop_eq_getElem_cons hi]
  have hidx : e - i = (e - (i + 1)) + 1 := by omega
  rw [hidx, List.take_succ_cons, List.sum_cons, List.getD_eq_getElem ts 0 hi]

lemma packWhile_spec (ts : List ℤ) (w m : ℤ) :
    ∀ (fuel i : ℕ) (c : ℤ) (e : ℕ) (cur : ℤ),
      packWhile ts w m fuel i c = (e, cur) →
      i ≤ e ∧ e ≤ max i ts.length ∧ cur = c + sumRange ts i e ∧
      ∀ j, i ≤ j → j < e →
        (c + sumRange ts i j + ts.getD j 0 ≤ w ∨ c + sumRange ts i j < m) := by
  intro fuel
  induction fuel with
  | zero =>
    intro i c e cur h
    rw [packWhile] at h
    obtain ⟨rfl, rfl⟩ := Prod.mk.injEq .. ▸ h
    refine ⟨le_rfl, le_max_left .., by rw [sumRange_self, add_zero], ?_⟩
    intro j h1 h2
    omega
  | succ fuel ih =>
    intro i c e cur h
    rw [packWhile] at h
    by_cases hi : i < ts.length
    · rw [if_pos hi] at h
      by_cases hbrk : w < c + ts.getD i 0 ∧ m ≤ c
      · rw [if_pos hbrk] at h
        obtain ⟨rfl, rfl⟩ := Prod.mk.injEq .. ▸ h
        refine ⟨le_rfl, le_max_left .., by rw [sumRange_self, add_zero], ?_⟩
        intro j h1 h2
        omega
      · rw [if_neg hbrk] at h
        obtain ⟨h1, h2, h3, h4⟩ := ih (i + 1) (c + ts.getD i 0) e cur h
        have hfront : ∀ j, i + 1 ≤ j →
            c + sumRange ts i j = (c + ts.getD i 0) + sumRange ts (i + 1) j := by
          intro j hj
          rw [sumRange_front ts i j hi hj]
          ring
        refine ⟨by omega, ?_, ?_, ?_⟩
        · have : max (i + 1) ts.length = ts.length := by omega
          rw [this] at h2
          omega
        · rw [h3, ← hfront e h1]
        · intro j hj1 hj2
          by_cases hji : j = i
          · subst hji
            rw [sumRange_self, add_zero]
            omega
          · have := h4 j (by omega) hj2
            rw [← hfront j (by omega)] at this
            exact this
    · rw [if_neg hi] at h
      obtain ⟨rfl, rfl⟩ := Prod.mk.injEq .. ▸ h
      refine ⟨le_rfl, le_max_left .., by rw [sumRange_self, add_zero], ?_⟩
      intro j h1 h2
      omega

lemma buildSpans_spec (sentences : List SentenceRec) (w m : ℤ) :
    ∀ (fuel start_idx chunk_index : ℕ),
      ∀ sp ∈ buildSpans sentences w m fuel start_idx chunk_index,
        sp.token_count = sumRange (tokenCounts sentences) sp.start_idx sp.end_idx ∧
        sp.start_idx < sp.end_idx ∧ sp.end_idx ≤ sentences.length ∧
        (sp.token_count ≤ w ∨ sp.end_idx = sp.start_idx + 1 ∨
          sumRange (tokenCounts sentences) sp.start_idx (sp.end_idx - 1) < m) := by
  intro fuel
  induction fuel with
  | zero =>
    intro start_idx chunk_index sp hsp
    rw [buildSpans] at hsp
    simp at hsp
  | succ fuel ih =>
    intro start_idx chunk_index sp hsp
    rw [buildSpans] at hsp
    by_cases hi : start_idx < sentences.length
    · rw [if_pos hi] at hsp
      simp only at hsp
      rcases List.mem_cons.mp hsp with rfl | htail
      · -- the span emitted in this iteration
        set ts := tokenCounts sentences with hts
        have hlen : ts.length = sentences.length := tokenCounts_length sentences
        set pk := packWhile ts w m (ts.length + 1) start_idx 0 with hpk
        obtain ⟨hp1, hp2, hp3, hp4⟩ :=
          packWhile_spec ts w m (ts.length + 1) start_idx 0 pk.1 pk.2 (by rw [← hpk])
        have hmax : max start_idx ts.length = ts.length := by omega
        rw [hmax] at hp2
        by_cases hforced : pk.1 = start_idx
        · rw [if_pos hforced, if_pos hforced]
          have hmin : min (start_idx + 1) sentences.length = start_idx + 1 := by omega
          have hstart_ts : start_idx < ts.length := by omega
          have hsum : sumRange ts start_idx (start_idx + 1) = ts.getD start_idx 0 := by
            rw [sumRange_succ ts start_idx start_idx le_rfl hstart_ts,
              sumRange_self, zero_add]
          change ts.getD start_idx 0 =
              sumRange ts start_idx (min (start_idx + 1) sentences.length) ∧
            start_idx < min (start_idx + 1) sentences.length ∧
            min (start_idx + 1) sentences.length ≤ sentences.length ∧
            (ts.getD start_idx 0 ≤ w ∨
              min (start_idx + 1) sentences.length = start_idx + 1 ∨
              sumRange ts start_idx (min (start_idx + 1) sentences.length - 1) < m)
          rw [hmin]
          exact ⟨hsum.symm, by omega, by omega, Or.inr (Or.inl rfl)⟩
        · rw [if_neg hforced, if_neg hforced]
          have hlt : start_idx < pk.1 := by omega
          change pk.2 = sumRange ts start_idx pk.1 ∧ start_idx < pk.1 ∧
            pk.1 ≤ sentences.length ∧
            (pk.2 ≤ w ∨ pk.1 = start_idx + 1 ∨
              sumRange ts start_idx (pk.1 - 1) < m)
          refine ⟨by rw [hp3, zero_add], hlt, by omega, ?_⟩
          by_cases hov : pk.2 ≤ w
          · exact Or.inl hov
          · by_cases hsingle : pk.1 = start_idx + 1
            · exact Or.inr (Or.inl hsingle)
            · refine Or.inr (Or.inr ?_)
              have hj : start_idx ≤ pk.1 - 1 := by omega
              have hj2 : pk.1 - 1 < pk.1 := by omega
              rcases hp4 (pk.1 - 1) hj hj2 with hle | hlt'
              · exfalso
                have hjlen : pk.1 - 1 < ts.length := by omega
                have : sumRange ts start_idx ((pk.1 - 1) + 1) =
                    sumRange ts start_idx (pk.1 - 1) + ts.getD (pk.1 - 1) 0 :=
                  sumRange_succ ts start_idx (pk.1 - 1) hj hjlen
                have hsucc : (pk.1 - 1) + 1 = pk.1 := by omega
                rw [hsucc] at this
                rw [zero_add] at hle
                rw [hp3, zero_add, this] at hov
                omega
              · rw [zero_add] at hlt'
                exact hlt'
      · exact ih _ _ sp htail
    · rw [if_neg hi] at hsp
      simp at hsp

/-! ## C2 — spans can exceed the window with multiple sentences -/

/-- **C2 counterexample.** With the valid parameters `window_size = 10 > 0`
and `min_tokens = 5 ≥ 0`, sentences of 2 and 20 tokens are packed into a
*single* span of 22 tokens: the span exceeds `window_tokens` yet is not a
single oversized sentence emitted alone (it packs two sentences), because
the loop keeps adding sentences while the running count is below
`min_tokens`. -/
theorem C2_counterexample :
    chunkTextSpans
        [{ start_char := 0, end_char := 1, token_count := 2 },
         { start_char := 1, end_char := 2, token_count := 20 }] 10 0 5 =
      [{ chunk_index := 0, start_idx := 0, end_idx := 2,
         start_char := 0, end_char := 2, token_count := 22 }] ∧
    (0 : ℤ) < 10 ∧ (0 : ℤ) ≤ 5 ∧
    (10 : ℤ) < 22 ∧ (0 : ℕ) + 1 ≠ 2 := by
  refine ⟨by decide, by decide, by decide, by decide, by decide⟩

/-- **C2 amended.** For valid parameters (`window_size > 0`,
`min_tokens ≥ 0`), every span produced by `chunk_text_task`'s packing
loop has a token count equal to the sum of its sentences' token counts,
packs at least one sentence, and satisfies: its token count is at most
`window_size`, **or** it consists of a single sentence emitted alone,
**or** its token count before its last sentence was still below
`min_tokens` (the loop admits an overflowing sentence whenever the
window has not yet reached `min_tokens`). -/
theorem C2_amended_span_bound (sentences : List SentenceRec)
    (window_size overlap min_tokens : ℤ)
    (hw : 0 < window_size) (hm : 0 ≤ min_tokens)
    (sp : SpanRec)
    (hsp : sp ∈ chunkTextSpans sentences window_size overlap min_tokens) :
    sp.token_count =
      sumRange (tokenCounts sentences) sp.start_idx sp.end_idx ∧
    sp.start_idx < sp.end_idx ∧ sp.end_idx ≤ sentences.length ∧
    (sp.token_count ≤ window_size ∨ sp.end_idx = sp.start_idx + 1 ∨
      sumRange (tokenCounts sentences) sp.start_idx (sp.end_idx - 1) <
        min_tokens) :=
  buildSpans_spec sentences window_size min_tokens
    (sentences.length + 1) 0 0 sp hsp

/-- **C2 amended, witness.** A single 3-token sentence with window 10. -/
theorem C2_amended_span_bound_witness :
    ((0 : ℤ) < 10) ∧ ((0 : ℤ) ≤ 0) ∧
    ({ chunk_index := 0, start_idx := 0, end_idx := 1, start_char := 0,
       end_char := 1, token_count := 3 } ∈
      chunkTextSpans [{ start_char := 0, end_char := 1, token_count := 3 }]
        10 0 0) ∧
    (({ chunk_index := 0, start_idx := 0, end_idx := 1, start_char := 0,
        end_char := 1, token_count := 3 } : SpanRec).token_count =
      sumRange
        (tokenCounts [{ start_char := 0, end_char := 1, token_count := 3 }])
        0 1 ∧
     (0 : ℕ) < 1 ∧
     (1 : ℕ) ≤ [({ start_char := 0, end_char := 1, token_count := 3 } :
        SentenceRec)].length ∧
     (({ chunk_index := 0, start_idx := 0, end_idx := 1, start_char := 0,
         end_char := 1, token_count := 3 } : SpanRec).token_count ≤ 10 ∨
       (1 : ℕ) = 0 + 1 ∨
       sumRange
         (tokenCounts [{ start_char := 0, end_char := 1, token_count := 3 }])
         0 (1 - 1) < 0)) := by
  refine ⟨by decide, by decide, by decide, ?_⟩
  exact C2_amended_span_bound
    [{ start_char := 0, end_char := 1, token_count := 3 }] 10 0 0
    (by decide) (by decide) _ (by decide)

/-! ## Helper lemmas: keyword search -/

lemma wordsAux_infix : ∀ (l acc : List Char), ∀ w ∈ wordsAux l acc,
    w <:+: (acc.reverse ++ l) := by
  intro l
  induction l with
  | nil =>
    intro acc w hw
    rw [wordsAux] at hw
    by_cases hacc : acc = []
    · rw [if_pos hacc] at hw
      simp at hw
    · rw [if_neg hacc] at hw
      rw [List.mem_singleton.mp hw]
      exact ⟨[], [], by simp⟩
  | cons c rest ih =>
    intro acc w hw
    rw [wordsAux] at hw
    by_cases hws : c.isWhitespace
    · rw [if_pos hws] at hw
      have hrest : ∀ w ∈ wordsAux rest [], w <:+: (acc.reverse ++ c :: rest) := by
        intro w hw'
        have h1 : w <:+: rest := by simpa using ih [] w hw'
        exact h1.trans ⟨acc.reverse ++ [c], [], by simp⟩
      by_cases hacc : acc = []
      · rw [if_pos hacc] at hw
        exact hrest w hw
      · rw [if_neg hacc] at hw
        rcases List.mem_cons.mp hw with rfl | hw'
        · exact ⟨[], c :: rest, by simp⟩
        · exact hrest w hw'
    · rw [if_neg hws] at hw
      have := ih (c :: acc) w hw
      simpa using this

lemma pyWords_infix (s : String) (t : List Char) (ht : t ∈ pyWords s) :
    t <:+: s.data := by
  have := wordsAux_infix s.data [] t ht
  simpa using this

lemma keywordScore_self (query : String) :
    keywordScore (queryTerms query) query = (queryTerms query).card := by
  unfold keywordScore
  rw [Finset.filter_true_of_mem]
  intro t ht
  rw [pyIn, decide_eq_true_iff]
  exact pyWords_infix (pyLower query) t (List.mem_toFinset.mp ht)

lemma keywordScore_lt_of_missing (terms : Finset (List Char)) (text : String)
    (t : List Char) (ht : t ∈ terms) (hmiss : pyIn t (pyLower text) = false) :
    keywordScore terms text < terms.card := by
  unfold keywordScore
  refine Finset.card_lt_card ⟨Finset.filter_subset _ _, fun hsub => ?_⟩
  have := Finset.mem_filter.mp (hsub ht)
  rw [hmiss] at this
  exact absurd this.2 (by simp)

lemma head?_take {α : Type} (l : List α) (k : ℕ) (hk : 1 ≤ k) :
    (l.take k).head? = l.head? := by
  cases l with
  | nil => simp
  | cons a t =>
    cases k with
    | zero => omega
    | succ k => rw [List.take_succ_cons]; rfl

lemma insertionSort_head?_max (l : List SearchResult) (x : SearchResult)
    (hx : x ∈ l) (hmax : ∀ y ∈ l, y ≠ x → y.score < x.score) :
    (l.insertionSort scoreGE).head? = some x := by
  have hperm : List.Perm (l.insertionSort scoreGE) l := List.perm_insertionSort _ l
  have hsorted : List.Sorted scoreGE (l.insertionSort scoreGE) :=
    List.sorted_insertionSort scoreGE l
  have hx' : x ∈ l.insertionSort scoreGE := hperm.mem_iff.mpr hx
  cases hsl : l.insertionSort scoreGE with
  | nil => rw [hsl] at hx'; simp at hx'
  | cons h t =>
    rw [hsl] at hx' hsorted hperm
    by_cases hhx : h = x
    · rw [hhx]
      rfl
    · have hh : h ∈ l := hperm.mem_iff.mp (List.mem_cons_self h t)
      have hlt : h.score < x.score := hmax h hh hhx
      rcases List.mem_cons.mp hx' with rfl | hxt
    -- x = h contradicts hhx
      · exact absurd rfl (Ne.symm hhx)
      · have hge : scoreGE h x := (List.pairwise_cons.mp hsorted).1 x hxt
        exact absurd hge (not_le.mpr hlt)

lemma foldl_fuseStep_eq : ∀ (l acc : List SearchResult),
    ((acc ++ l).map fun r => r.chunk_id).Nodup →
    l.foldl fuseStep acc = acc ++ l := by
  intro l
  induction l with
  | nil => intro acc _; simp
  | cons x t ih =>
    intro acc hnd
    have hx_not : (acc.any fun r => r.chunk_id = x.chunk_id) = false := by
      rw [List.any_eq_false]
      intro r hr
      have hnd' := hnd
      rw [List.map_append, List.nodup_append] at hnd'
      intro heq
      have heq' : r.chunk_id = x.chunk_id := of_decide_eq_true heq
      exact hnd'.2.2 (List.mem_map_of_mem (fun r => r.chunk_id) hr)
        (by simp [heq'])
    have hstep : fuseStep acc x = acc ++ [x] := by
      unfold fuseStep
      rw [hx_not]
      simp
    rw [List.foldl_cons, hstep, ih (acc ++ [x]) (by simpa using hnd)]
    simp

/-! ## C9 — exact-match keyword ranking -/

/-- **C9 counterexample.** Query `"alpha beta"`, an exact-match chunk
`"c2"` indexed *after* a competitor `"c1"` whose text contains every
query term as a substring: both score 2 terms × 10, Python's stable sort
keeps the earlier-indexed competitor first, so the exact-match chunk is
*not* ranked first even though the competitor shares (all) query terms. -/
theorem C9_counterexample :
    ({ id := "c2", text := "alpha beta", vector := [] } :
        IndexedChunk).text = "alpha beta" ∧
    keywordScore (queryTerms "alpha beta") "alpha beta gamma" =
      (queryTerms "alpha beta").card ∧
    ((searchKeywordOnly
        [{ id := "c1", text := "alpha beta gamma", vector := [] },
         { id := "c2", text := "alpha beta", vector := [] }]
        "alpha beta" 5).head?.map fun r => r.chunk_id) = some "c1" ∧
    ("c1" : String) ≠ "c2" := by
  have hks1 : keywordScore (queryTerms "alpha beta") "alpha beta gamma" = 2 := by
    decide
  have hks2 : keywordScore (queryTerms "alpha beta") "alpha beta" = 2 := by
    decide
  have hcard : (queryTerms "alpha beta").card = 2 := by decide
  refine ⟨rfl, by rw [hks1, hcard], ?_, by decide⟩
  set r1 : SearchResult :=
    { chunk_id := "c1", text := "alpha beta gamma",
      score := ((2 : ℕ) : ℚ) * 10, source := "keyword" } with hr1
  set r2 : SearchResult :=
    { chunk_id := "c2", text := "alpha beta",
      score := ((2 : ℕ) : ℚ) * 10, source := "keyword" } with hr2
  have hresults :
      ([{ id := "c1", text := "alpha beta gamma", vector := [] },
        { id := "c2", text := "alpha beta", vector := [] }] :
          List IndexedChunk).filterMap (fun chunk =>
        if 0 < keywordScore (queryTerms "alpha beta") chunk.text then
          some { chunk_id := chunk.id, text := chunk.text,
                 score := ((keywordScore (queryTerms "alpha beta") chunk.text : ℕ) : ℚ) * 10,
                 source := "keyword" }
        else none) = [r1, r2] := by
    simp only [List.filterMap, hks1, hks2]
    norm_num [hr1, hr2]
  have hsort12 : ([r1, r2].insertionSort scoreGE) = [r1, r2] := by
    have hge : scoreGE r1 r2 := le_rfl
    simp [List.insertionSort, List.orderedInsert, if_pos hge]
  have hkw : keywordSearch
      [{ id := "c1", text := "alpha beta gamma", vector := [] },
       { id := "c2", text := "alpha beta", vector := [] }]
      "alpha beta" 5 = [r1, r2] := by
    show ((([{ id := "c1", text := "alpha beta gamma", vector := [] },
        { id := "c2", text := "alpha beta", vector := [] }] :
          List IndexedChunk).filterMap (fun chunk =>
        if 0 < keywordScore (queryTerms "alpha beta") chunk.text then
          some { chunk_id := chunk.id, text := chunk.text,
                 score := ((keywordScore (queryTerms "alpha beta") chunk.text : ℕ) : ℚ) * 10,
                 source := "keyword" }
        else none)).insertionSort scoreGE).take 5 = [r1, r2]
    rw [hresults, hsort12]
    rfl
  have hfuse : [r1, r2].foldl fuseStep [] = [r1, r2] := by
    apply foldl_fuseStep_eq
    simp [hr1, hr2]
  show ((((keywordSearch
      [{ id := "c1", text := "alpha beta gamma", vector := [] },
       { id := "c2", text := "alpha beta", vector := [] }]
      "alpha beta" 5).foldl fuseStep []).insertionSort scoreGE).take
        5).head?.map (fun r => r.chunk_id) = some "c1"
  rw [hkw, hfuse, hsort12]
  rfl

/-- **C9 amended.** With keyword-only retrieval (no embedding generator,
graph boost off), distinct chunk ids, a non-empty term set and
`top_k ≥ 1`: if the index holds a chunk whose text equals the query and
every *other* chunk fails to contain at least one query term as a
substring, then the exact-match chunk is ranked first with the maximal
score `10 × |terms|`.  (A competitor containing *every* query term ties
with the exact match, and Python's stable sort then ranks whichever was
indexed first — see the counterexample — so the claim's "ahead of every
chunk sharing at least one term" must exclude full-containment ties.) -/
lemma keywordResults_mem (terms : Finset (List Char))
    (chunks : List IndexedChunk) (y : SearchResult)
    (hy : y ∈ chunks.filterMap fun chunk =>
      if 0 < keywordScore terms chunk.text then
        some { chunk_id := chunk.id, text := chunk.text,
               score := ((keywordScore terms chunk.text : ℕ) : ℚ) * 10,
               source := "keyword" }
      else none) :
    ∃ c ∈ chunks, 0 < keywordScore terms c.text ∧
      y = { chunk_id := c.id, text := c.text,
            score := ((keywordScore terms c.text : ℕ) : ℚ) * 10,
            source := "keyword" } := by
  obtain ⟨c, hc, hfc⟩ := List.mem_filterMap.mp hy
  have hfc' : (if 0 < keywordScore terms c.text then
      some { chunk_id := c.id, text := c.text,
             score := ((keywordScore terms c.text : ℕ) : ℚ) * 10,
             source := "keyword" }
    else none) = some y := hfc
  by_cases h0 : 0 < keywordScore terms c.text
  · rw [if_pos h0] at hfc'
    exact ⟨c, hc, h0, (Option.some.inj hfc').symm⟩
  · rw [if_neg h0] at hfc'
    cases hfc'

lemma keywordResults_ids_sublist (terms : Finset (List Char)) :
    ∀ chunks : List IndexedChunk,
    List.Sublist ((chunks.filterMap (fun chunk =>
      if 0 < keywordScore terms chunk.text then
        some { chunk_id := chunk.id, text := chunk.text,
               score := ((keywordScore terms chunk.text : ℕ) : ℚ) * 10,
               source := "keyword" }
      else none : IndexedChunk → Option SearchResult)).map fun r => r.chunk_id)
    (chunks.map fun c => c.id) := by
  intro chunks
  induction chunks with
  | nil => simp
  | cons c rest ih =>
    rw [List.filterMap_cons]
    cases hfc : (if 0 < keywordScore terms c.text then
        some { chunk_id := c.id, text := c.text,
               score := ((keywordScore terms c.text : ℕ) : ℚ) * 10,
               source := "keyword" }
      else none : Option SearchResult) with
    | none =>
      show ((rest.filterMap (fun chunk =>
          if 0 < keywordScore terms chunk.text then
            some { chunk_id := chunk.id, text := chunk.text,
                   score := ((keywordScore terms chunk.text : ℕ) : ℚ) * 10,
                   source := "keyword" }
          else none : IndexedChunk → Option SearchResult)).map
            fun r => r.chunk_id).Sublist (c.id :: rest.map fun c => c.id)
      exact ih.cons c.id
    | some r =>
      have hrid : r.chunk_id = c.id := by
        by_cases h0 : 0 < keywordScore terms c.text
        · rw [if_pos h0] at hfc
          rw [← Option.some.inj hfc]
        · rw [if_neg h0] at hfc
          cases hfc
      show (r.chunk_id :: ((rest.filterMap (fun chunk =>
          if 0 < keywordScore terms chunk.text then
            some { chunk_id := chunk.id, text := chunk.text,
                   score := ((keywordScore terms chunk.text : ℕ) : ℚ) * 10,
                   source := "keyword" }
          else none : IndexedChunk → Option SearchResult)).map
            fun r => r.chunk_id)).Sublist (c.id :: rest.map fun c => c.id)
      rw [hrid]
      exact ih.cons₂ c.id

theorem C9_amended_exact_match_first
    (chunks : List IndexedChunk) (query : String) (exactChunk : IndexedChunk)
    (top_k : ℕ)
    (hmem : exactChunk ∈ chunks)
    (htext : exactChunk.text = query)
    (hterms : queryTerms query ≠ ∅)
    (hnodup : (chunks.map fun c => c.id).Nodup)
    (hmiss : ∀ c ∈ chunks, c.id ≠ exactChunk.id →
      ∃ t ∈ queryTerms query, pyIn t (pyLower c.text) = false)
    (htop : 1 ≤ top_k) :
    (searchKeywordOnly chunks query top_k).head? =
      some { chunk_id := exactChunk.id, text := exactChunk.text,
             score := (((queryTerms query).card : ℕ) : ℚ) * 10,
             source := "keyword" } := by
  have hcard_pos : 0 < (queryTerms query).card :=
    Finset.card_pos.mpr (Finset.nonempty_iff_ne_empty.mpr hterms)
  set rx : SearchResult :=
    { chunk_id := exactChunk.id, text := exactChunk.text,
      score := (((queryTerms query).card : ℕ) : ℚ) * 10,
      source := "keyword" } with hrx
  set results := chunks.filterMap (fun chunk =>
      if 0 < keywordScore (queryTerms query) chunk.text then
        some { chunk_id := chunk.id, text := chunk.text,
               score := ((keywordScore (queryTerms query) chunk.text : ℕ) : ℚ) * 10,
               source := "keyword" }
      else none : IndexedChunk → Option SearchResult) with hresults
  have hscore_exact : keywordScore (queryTerms query) exactChunk.text =
      (queryTerms query).card := by
    rw [htext]
    exact keywordScore_self query
  have hrx_mem : rx ∈ results := by
    rw [hresults]
    refine List.mem_filterMap.mpr ⟨exactChunk, hmem, ?_⟩
    show (if 0 < keywordScore (queryTerms query) exactChunk.text then
        some { chunk_id := exactChunk.id, text := exactChunk.text,
               score := ((keywordScore (queryTerms query) exactChunk.text : ℕ) : ℚ) * 10,
               source := "keyword" }
      else none) = some rx
    rw [hscore_exact, if_pos hcard_pos, hrx]
  have hids_sub : List.Sublist (results.map fun r => r.chunk_id)
      (chunks.map fun c => c.id) := by
    rw [hresults]
    exact keywordResults_ids_sublist (queryTerms query) chunks
  have hids_nodup : (results.map fun r => r.chunk_id).Nodup :=
    hnodup.sublist hids_sub
  have hmax : ∀ y ∈ results, y ≠ rx → y.score < rx.score := by
    intro y hy hne
    obtain ⟨c, hc, h0, hyc⟩ :=
      keywordResults_mem (queryTerms query) chunks y (hresults ▸ hy)
    by_cases hcid : c.id = exactChunk.id
    · exfalso
      apply hne
      have hceq : c = exactChunk :=
        List.inj_on_of_nodup_map hnodup hc hmem (by simp [hcid])
      rw [hyc, hceq, hrx, hscore_exact]
    · obtain ⟨t, ht, hmiss_t⟩ := hmiss c hc hcid
      have hlt : keywordScore (queryTerms query) c.text < (queryTerms query).card :=
        keywordScore_lt_of_missing (queryTerms query) c.text t ht hmiss_t
      rw [hyc, hrx]
      show ((keywordScore (queryTerms query) c.text : ℕ) : ℚ) * 10 <
        (((queryTerms query).card : ℕ) : ℚ) * 10
      exact mul_lt_mul_of_pos_right (by exact_mod_cast hlt) (by norm_num)
  have hsort_head : ((results.insertionSort scoreGE).take top_k).head? = some rx := by
    rw [head?_take _ _ htop]
    exact insertionSort_head?_max results rx hrx_mem hmax
  set kw := (results.insertionSort scoreGE).take top_k with hkw
  have hkw_eq : keywordSearch chunks query top_k = kw := by
    show ((chunks.filterMap fun chunk =>
        if 0 < keywordScore (queryTerms query) chunk.text then
          some { chunk_id := chunk.id, text := chunk.text,
                 score := ((keywordScore (queryTerms query) chunk.text : ℕ) : ℚ) * 10,
                 source := "keyword" }
        else none).insertionSort scoreGE).take top_k = kw
    rw [← hresults, hkw]
  have hkw_nodup : (kw.map fun r => r.chunk_id).Nodup := by
    have hperm : List.Perm ((results.insertionSort scoreGE).map fun r => r.chunk_id)
        (results.map fun r => r.chunk_id) :=
      (List.perm_insertionSort scoreGE results).map _
    have hsorted_nodup : ((results.insertionSort scoreGE).map
        fun r => r.chunk_id).Nodup := hperm.nodup_iff.mpr hids_nodup
    rw [hkw]
    exact hsorted_nodup.sublist ((List.take_sublist top_k _).map _)
  have hfuse : kw.foldl fuseStep [] = kw := by
    have := foldl_fuseStep_eq kw [] (by simpa using hkw_nodup)
    simpa using this
  have hkw_sorted : List.Sorted scoreGE kw := by
    rw [hkw]
    exact (List.sorted_insertionSort scoreGE results).sublist
      (List.take_sublist top_k _)
  have hkw_len : kw.length ≤ top_k := by
    rw [hkw]
    exact (List.length_take ..).le.trans (min_le_left ..)
  show ((((keywordSearch chunks query top_k).foldl
      fuseStep []).insertionSort scoreGE).take top_k).head? = some rx
  rw [hkw_eq, hfuse, List.Sorted.insertionSort_eq hkw_sorted,
    List.take_of_length_le hkw_len]
  exact hsort_head

/-- **C9 amended, witness.** A one-chunk index whose chunk is the exact
match for query `"alpha"`. -/
theorem C9_amended_exact_match_first_witness :
    (({ id := "c1", text := "alpha", vector := [] } : IndexedChunk) ∈
      [({ id := "c1", text := "alpha", vector := [] } : IndexedChunk)]) ∧
    (searchKeywordOnly [{ id := "c1", text := "alpha", vector := [] }]
        "alpha" 5).head? =
      some { chunk_id := "c1", text := "alpha",
             score := (((queryTerms "alpha").card : ℕ) : ℚ) * 10,
             source := "keyword" } := by
  refine ⟨List.mem_singleton_self _, ?_⟩
  exact C9_amended_exact_match_first
    [{ id := "c1", text := "alpha", vector := [] }] "alpha"
    { id := "c1", text := "alpha", vector := [] } 5
    (List.mem_singleton_self _) rfl (by decide) (by decide)
    (by intro c hc hne
        exfalso
        rcases List.mem_singleton.mp hc with rfl
        exact hne rfl)
    (by norm_num)

end NoteAgentML
